import Mathlib

/-!
# demosync: correlation-based request/reply bridge

A shallow embedding of the Go packages

* `pkg/models` (payment.go),
* `internal/storage` (correlation.go),
* `internal/kafka` (producer.go, consumer.go),
* `internal/api/handlers` (capture.go),

followed by theorems about the correlation store, the reaper pass, the
dispatcher (`processMessage`) and the caller-facing handler (`Capture`).

Modelling conventions.

* A Go `map[string]V` is an association list with unique keys (`AList`);
  indexing a missing key yields the zero value of `V`.
* A Go channel value is a reference (`Chan`); reference `0` is the nil channel.
  The heap records which references have been allocated and which are closed.
* `time.Time` is an integer instant, `time.Duration` an integer offset.
* Every method of `CorrelationStore` runs under the store mutex, hence is one
  atomic step; unbuffered channel operations are atomic rendezvous steps.
* Library calls whose code is outside the repository (`json.Marshal`,
  `json.Unmarshal`, the Kafka client, `uuid.New`, `time.Now`, gin binding) are
  inputs of the functions that call them.
* A `range` over a map visits the entries in the order of the association list;
  `cleanupLoop_order_irrelevant` shows that the order does not matter.
* Goroutines interleave at the granularity of atomic steps: a locked store
  method, a channel operation, a `select`. The process `Sys` holds one
  `Capture` invocation, the dispatcher and the reaper.
-/

namespace Demosync

/-! ## pkg/models/payment.go -/

/-- Go `float64`. -/
abbrev Float64 := Float

/-- CaptureRequest of `pkg/models/payment.go`. -/
structure CaptureRequest where
  CorrelationID : String
  TransactionID : String
  Amount : Float64
  Currency : String
  Metadata : List (String × String)

/-- CaptureResponse of `pkg/models/payment.go`. -/
structure CaptureResponse where
  CorrelationID : String
  TransactionID : String
  Status : String
  AuthorizationCode : String
  ErrorCode : String
  ErrorMessage : String
  deriving DecidableEq, Repr

/-! ## Go runtime: time, channels, panics -/

/-- An instant (`time.Time`). -/
abbrev Time := Int

/-- An offset between instants (`time.Duration`). -/
abbrev Duration := Int

/-- Models `t.After(u)`: t is strictly later than u. -/
def After (t u : Time) : Bool := decide (u < t)

/-- Models `t.Add(d)`. -/
def Add (t : Time) (d : Duration) : Time := t + d

/-- A channel value: a reference into the channel heap; `0` is the nil channel. -/
abbrev Chan := Nat

/-- The nil channel (zero value of a channel type). -/
def nilChan : Chan := 0

/-- Run-time panics raised by channel operations. -/
inductive Panic where
  | closeOfNilChannel
  | closeOfClosedChannel
  | sendOnClosedChannel
  deriving DecidableEq, Repr

/-- Channel heap: references `1 .. next` are allocated; `closed` lists the closed ones. -/
structure ChanHeap where
  next : Chan
  closed : List Chan
  deriving DecidableEq, Repr

/-- Models `make(chan *models.CaptureResponse)`: allocates a fresh, open, non-nil channel. -/
def makeChan (h : ChanHeap) : Chan × ChanHeap :=
  (h.next + 1, { h with next := h.next + 1 })

/-- Models `close(c)`: panics on the nil channel and on an already closed channel. -/
def closeChan (h : ChanHeap) (c : Chan) : Except Panic ChanHeap :=
  if c = nilChan then .error .closeOfNilChannel
  else if c ∈ h.closed then .error .closeOfClosedChannel
  else .ok { h with closed := c :: h.closed }

/-- A Go `map[string]V`. -/
abbrev GoMap (V : Type) := AList (fun _ : String => V)

/-- Map indexing `m[k]`: the stored value, or the zero value when the key is missing. -/
def GoMap.index {V : Type} (m : GoMap V) (k : String) (zero : V) : V :=
  (m.lookup k).getD zero

/-! ## internal/storage/correlation.go -/

/-- CorrelationStore of `internal/storage/correlation.go` (the mutex is implicit:
each method below is one atomic step). -/
structure CorrelationStore where
  channels : GoMap Chan
  expiryDuration : Duration
  expiries : GoMap Time

/-- Models `NewCorrelationStore(expiryDuration)`: two empty maps. -/
def NewCorrelationStore (expiryDuration : Duration) : CorrelationStore :=
  { channels := ∅, expiryDuration := expiryDuration, expiries := ∅ }

/-- Models `s.Set(correlationID, ch)`, with `now` the value of `time.Now()`. -/
def CorrelationStore.Set (s : CorrelationStore) (correlationID : String) (ch : Chan)
    (now : Time) : CorrelationStore :=
  { s with
    channels := s.channels.insert correlationID ch
    expiries := s.expiries.insert correlationID (Add now s.expiryDuration) }

/-- Models `s.Get(correlationID)`: the pair `(ch, found)`. -/
def CorrelationStore.Get (s : CorrelationStore) (correlationID : String) : Chan × Bool :=
  match s.channels.lookup correlationID with
  | some ch => (ch, true)
  | none => (nilChan, false)

/-- Models `s.Delete(correlationID)`: deletes the key from both maps. -/
def CorrelationStore.Delete (s : CorrelationStore) (correlationID : String) :
    CorrelationStore :=
  { s with
    channels := s.channels.erase correlationID
    expiries := s.expiries.erase correlationID }

/-- Process memory shared by the goroutines: the store and the channel heap. -/
structure Memory where
  store : CorrelationStore
  heap : ChanHeap

/-- Result of running code that may panic; the memory at the panic is kept. -/
inductive Exec where
  | done (m : Memory)
  | panicked (p : Panic) (m : Memory)

/-- The memory an execution ended in. -/
def Exec.mem : Exec → Memory
  | .done m => m
  | .panicked _ m => m

/-- Body of `for id, expiry := range s.expiries` in `cleanupExpired`, for one entry. -/
def reapEntry (now : Time) (m : Memory) (id : String) (expiry : Time) : Exec :=
  if After now expiry then
    match closeChan m.heap (m.store.channels.index id nilChan) with
    | .error p => .panicked p m
    | .ok h =>
      .done { store := { m.store with
                         channels := m.store.channels.erase id
                         expiries := m.store.expiries.erase id }
              heap := h }
  else .done m

/-- The `range` loop of `cleanupExpired` over the entries still to be visited. -/
def cleanupLoop (now : Time) : List (Sigma fun _ : String => Time) → Memory → Exec
  | [], m => .done m
  | e :: es, m =>
    match reapEntry now m e.1 e.2 with
    | .done m1 => cleanupLoop now es m1
    | .panicked p m1 => .panicked p m1

/-- One reaper pass: the body of `for range ticker.C` in `cleanupExpired`, run under
the store lock with `now` the value of `time.Now()`. -/
def cleanupExpired (now : Time) (m : Memory) : Exec :=
  cleanupLoop now m.store.expiries.entries m

/-! ## internal/kafka/producer.go -/

/-- A Kafka message: topic, routing key, body. -/
structure Message where
  Topic : String
  Key : String
  Value : String
  deriving DecidableEq, Repr

/-- Library calls made by the handler and the dispatcher. -/
structure Env where
  /-- Outcome of `json.Marshal(request)`: the bytes, or `none` on error. -/
  Marshal : CaptureRequest → Option String
  /-- Outcome of `json.Unmarshal(msg.Value, &response)`: the response, or `none` on error. -/
  Unmarshal : String → Option CaptureResponse
  /-- Outcome of `p.producer.Produce(message, nil)`: `none` is the nil error. -/
  Client : Message → Option String

/-- Models `p.Produce(topic, key, value)`: builds the message and hands it to the client;
returns the message handed over and the client's error. -/
def Produce (env : Env) (topic key value : String) : Message × Option String :=
  let message : Message := { Topic := topic, Key := key, Value := value }
  (message, env.Client message)

/-! ## internal/api/handlers/capture.go -/

/-- Body passed to `c.JSON`: a `gin.H` with an `error` text, or a response pointer
(`none` is the nil pointer, rendered as JSON `null`). -/
inductive Body where
  | error (msg : String)
  | response (r : Option CaptureResponse)
  deriving DecidableEq, Repr

/-- What `c.JSON(status, body)` wrote. -/
structure HttpResponse where
  status : Nat
  body : Body
  deriving DecidableEq, Repr

def StatusOK : Nat := 200
def StatusBadRequest : Nat := 400
def StatusInternalServerError : Nat := 500
def StatusGatewayTimeout : Nat := 504

/-- Control state of one `Capture` invocation. -/
inductive CaptureCtl where
  /-- Blocked in the `select` on `responseChan` and `time.After`. -/
  | selecting (correlationID : String) (responseChan : Chan)
  /-- The `time.After` case was chosen; its body has not run yet. -/
  | timedOut (correlationID : String)
  /-- The handler wrote a response and returned. -/
  | responded (r : HttpResponse)
  deriving DecidableEq, Repr

/-- Result of running `Capture` up to its `select`. -/
structure CaptureStart where
  mem : Memory
  /-- Messages handed to the Kafka client by this invocation. -/
  produced : List Message
  ctl : CaptureCtl

/-- Handler `Capture` from its entry up to the `select`. `bound` is the outcome of
`c.ShouldBindJSON(&request)` (`none` on error), `uuid` the value of
`uuid.New().String()`, `now` the value of `time.Now()` inside `Set`. -/
def Capture (env : Env) (bound : Option CaptureRequest) (uuid : String) (now : Time)
    (m : Memory) : CaptureStart :=
  match bound with
  | none =>
    { mem := m, produced := []
      ctl := .responded ⟨StatusBadRequest, .error "Requisição inválida"⟩ }
  | some request =>
    let correlationID := uuid
    let (responseChan, heap1) := makeChan m.heap
    let m1 : Memory := { store := m.store.Set correlationID responseChan now, heap := heap1 }
    let request1 := { request with CorrelationID := correlationID }
    match env.Marshal request1 with
    | none =>
      { mem := m1, produced := []
        ctl := .responded ⟨StatusInternalServerError, .error "Erro ao serializar solicitação"⟩ }
    | some requestJSON =>
      match Produce env "payment-requests" correlationID requestJSON with
      | (message, some _) =>
        { mem := m1, produced := [message]
          ctl := .responded ⟨StatusInternalServerError, .error "Erro ao enviar solicitação"⟩ }
      | (message, none) =>
        { mem := m1, produced := [message]
          ctl := .selecting correlationID responseChan }

/-! ## internal/kafka/consumer.go and the goroutine interleaving -/

/-- Control state of the dispatcher goroutine inside `processMessage`. -/
inductive DispatchCtl where
  /-- Entry of `processMessage(msg)`; `Get` has not run yet. -/
  | entered (msg : Message)
  /-- After `Get` returned `found = true`; the body is about to be decoded. -/
  | found (msg : Message) (responseChan : Chan)
  /-- At `responseChan <- &response`. -/
  | sending (correlationID : String) (responseChan : Chan) (response : CaptureResponse)
  /-- The send completed; `Delete` has not run yet. -/
  | sent (correlationID : String)
  /-- After `processMessage` returned. -/
  | returned
  deriving DecidableEq, Repr

/-- The process: shared memory, one `Capture` invocation, the dispatcher, the log
of completed channel sends, and the panic that killed the process, if any. -/
structure Sys where
  mem : Memory
  capture : CaptureCtl
  dispatcher : DispatchCtl
  delivered : List (Chan × CaptureResponse)
  panic : Option Panic

/-- Scheduling choices: which goroutine runs its next atomic step. -/
inductive Action where
  /-- The dispatcher runs the next step of `processMessage`. -/
  | dispatch
  /-- The reaper runs one locked pass with `time.Now() = now`. -/
  | tick (now : Time)
  /-- The `time.After` channel of the `select` delivers and that case is chosen. -/
  | timer
  /-- The `Capture` goroutine runs its next step on its own. -/
  | capture
  deriving DecidableEq, Repr

/-- Next atomic step of `processMessage`; `none` when the dispatcher cannot move
(blocked in the send, or already returned). -/
def dispatchStep (env : Env) (s : Sys) : Option Sys :=
  match s.dispatcher with
  | .entered msg =>
    let correlationID := msg.Key
    match s.mem.store.Get correlationID with
    | (_, false) => some { s with dispatcher := .returned }
    | (responseChan, true) => some { s with dispatcher := .found msg responseChan }
  | .found msg responseChan =>
    match env.Unmarshal msg.Value with
    | none => some { s with dispatcher := .returned }
    | some response => some { s with dispatcher := .sending msg.Key responseChan response }
  | .sending correlationID responseChan response =>
    if responseChan = nilChan then none
    else if responseChan ∈ s.mem.heap.closed then
      some { s with panic := some .sendOnClosedChannel }
    else
      match s.capture with
      | .selecting _ ch =>
        if ch = responseChan then
          some { s with
                 capture := .responded ⟨StatusOK, .response (some response)⟩
                 dispatcher := .sent correlationID
                 delivered := s.delivered ++ [(responseChan, response)] }
        else none
      | _ => none
  | .sent correlationID =>
    some { s with
           mem := { s.mem with store := s.mem.store.Delete correlationID }
           dispatcher := .returned }
  | .returned => none

/-- Next step the `Capture` goroutine can take on its own: receiving the zero
value from a closed channel, or running the body of the timeout case. -/
def captureStep (s : Sys) : Option Sys :=
  match s.capture with
  | .selecting _ responseChan =>
    if responseChan ∈ s.mem.heap.closed then
      some { s with capture := .responded ⟨StatusOK, .response none⟩ }
    else none
  | .timedOut correlationID =>
    some { s with
           mem := { s.mem with store := s.mem.store.Delete correlationID }
           capture := .responded ⟨StatusGatewayTimeout,
                        .error "Tempo limite excedido esperando resposta"⟩ }
  | .responded _ => none

/-- The `time.After` case of the `select` fires. -/
def timerStep (s : Sys) : Option Sys :=
  match s.capture with
  | .selecting correlationID _ => some { s with capture := .timedOut correlationID }
  | _ => none

/-- One reaper pass as a step of the process. -/
def tickStep (now : Time) (s : Sys) : Option Sys :=
  match cleanupExpired now s.mem with
  | .done m => some { s with mem := m }
  | .panicked p m => some { s with mem := m, panic := some p }

/-- One scheduled step; `none` when the chosen goroutine cannot move or the
process has already died of a panic. -/
def step (env : Env) (a : Action) (s : Sys) : Option Sys :=
  match s.panic with
  | some _ => none
  | none =>
    match a with
    | .dispatch => dispatchStep env s
    | .tick now => tickStep now s
    | .timer => timerStep s
    | .capture => captureStep s

/-- Runs a schedule; `none` as soon as a scheduled step is not enabled. -/
def run (env : Env) : List Action → Sys → Option Sys
  | [], s => some s
  | a :: as, s =>
    match step env a s with
    | some s1 => run env as s1
    | none => none

/-- Lets the dispatcher run alone for at most `fuel` steps, stopping early when
it cannot move. -/
def dispatchAll (env : Env) : Nat → Sys → Sys
  | 0, s => s
  | fuel + 1, s =>
    match step env .dispatch s with
    | some s1 => dispatchAll env fuel s1
    | none => s

/-- Models `c.processMessage(msg)` run by the dispatcher without interference from the
reaper or the timer (a `Capture` blocked on the channel can take the value).
`processMessage` has four atomic steps: `Get`, decode, send, `Delete`. -/
def processMessage (env : Env) (msg : Message) (s : Sys) : Sys :=
  dispatchAll env 4 { s with dispatcher := .entered msg }

/-! ## Predicates on states -/

/-- The channels map and the expiries map have exactly the same key set. -/
def SameKeys (s : CorrelationStore) : Prop :=
  (∀ k ∈ s.channels.keys, k ∈ s.expiries.keys) ∧ (∀ k ∈ s.expiries.keys, k ∈ s.channels.keys)

instance (s : CorrelationStore) : Decidable (SameKeys s) := by
  unfold SameKeys; infer_instance

/-- Well-formed memory, as produced by the program: both maps have the same keys;
every registered channel is an allocated, open, non-nil channel registered under
one token only (each `Capture` registers a channel it has just made); closed
channels are allocated ones. -/
def WellFormed (m : Memory) : Prop :=
  SameKeys m.store
  ∧ (∀ e ∈ m.store.channels.entries,
      e.2 ≠ nilChan ∧ e.2 ≤ m.heap.next ∧ e.2 ∉ m.heap.closed)
  ∧ (∀ e1 ∈ m.store.channels.entries, ∀ e2 ∈ m.store.channels.entries,
      e1.2 = e2.2 → e1.1 = e2.1)
  ∧ (∀ c ∈ m.heap.closed, c ≤ m.heap.next)

instance (m : Memory) : Decidable (WellFormed m) := by
  unfold WellFormed; infer_instance

/-- The memory of a freshly started process: `NewCorrelationStore`, no channel yet. -/
def initMemory (expiryDuration : Duration) : Memory :=
  { store := NewCorrelationStore expiryDuration, heap := { next := 0, closed := [] } }

/-- Calls a client of the store can make: the exported methods and a reaper tick. -/
inductive StoreOp where
  | set (correlationID : String) (ch : Chan) (now : Time)
  | delete (correlationID : String)
  | reap (now : Time)
  deriving DecidableEq, Repr

/-- Effect of one store call on the memory. -/
def StoreOp.apply (op : StoreOp) (m : Memory) : Exec :=
  match op with
  | .set correlationID ch now => .done { m with store := m.store.Set correlationID ch now }
  | .delete correlationID => .done { m with store := m.store.Delete correlationID }
  | .reap now => cleanupExpired now m

/-- Runs store calls in sequence; a panic ends the process. -/
def runOps : List StoreOp → Memory → Exec
  | [], m => .done m
  | op :: ops, m =>
    match op.apply m with
    | .done m1 => runOps ops m1
    | .panicked p m1 => .panicked p m1

/-! ## Concrete states used to evaluate the model -/

/-- A store with time-to-live 300 holding token `T1` (channel 1, deadline 10) and
token `T2` (channel 2, deadline 20); both channels allocated and open. -/
def twoPending : Memory :=
  { store := ((NewCorrelationStore 300).Set "T1" 1 (-290)).Set "T2" 2 (-280)
    heap := { next := 2, closed := [] } }

/-- The response `approved / ABC123` for transaction `tx-1`. -/
def approved : CaptureResponse :=
  { CorrelationID := "", TransactionID := "tx-1", Status := "approved"
    AuthorizationCode := "ABC123", ErrorCode := "", ErrorMessage := "" }

/-- A toy environment: requests are encoded as `correlation/transaction/currency`,
the only body that decodes is `approved-ABC123`, and the broker accepts everything. -/
def demoEnv : Env :=
  { Marshal := fun r => some (r.CorrelationID ++ "/" ++ r.TransactionID ++ "/" ++ r.Currency)
    Unmarshal := fun v => if v = "approved-ABC123" then some approved else none
    Client := fun _ => none }

/-- The toy environment with a broker that rejects every message. -/
def downEnv : Env :=
  { demoEnv with Client := fun _ => some "broker unavailable" }

/-- A valid request in which the caller supplied a correlation_id of its own. -/
def demoRequest : CaptureRequest :=
  { CorrelationID := "chosen-by-caller", TransactionID := "tx-1", Amount := 10.5
    Currency := "BRL", Metadata := [("order", "42")] }

/-- The process right after a `Capture` invocation with token `uuid` reached (or
left) its `select`, started at instant 0 on a fresh store with time-to-live 300;
the dispatcher is at `ctl`. -/
def afterCapture (env : Env) (uuid : String) (ctl : DispatchCtl) : Sys :=
  let start := Capture env (some demoRequest) uuid 0 (initMemory 300)
  { mem := start.mem, capture := start.ctl, dispatcher := ctl, delivered := [], panic := none }

/-- An inbound response for token `key` whose body decodes in `demoEnv`. -/
def inbound (key : String) : Message :=
  { Topic := "payment-responses", Key := key, Value := "approved-ABC123" }

/-! ## Lemmas on maps and the reaper loop -/

theorem sameKeys_iff (s : CorrelationStore) :
    SameKeys s ↔ ∀ k, k ∈ s.channels ↔ k ∈ s.expiries := by
  unfold SameKeys
  constructor
  · rintro ⟨h1, h2⟩ k
    exact ⟨fun h => AList.mem_keys.mpr (h1 k (AList.mem_keys.mp h)),
           fun h => AList.mem_keys.mpr (h2 k (AList.mem_keys.mp h))⟩
  · intro h
    exact ⟨fun k hk => AList.mem_keys.mp ((h k).mp (AList.mem_keys.mpr hk)),
           fun k hk => AList.mem_keys.mp ((h k).mpr (AList.mem_keys.mpr hk))⟩

theorem lookup_some_iff_mem_entries {V : Type} (m : GoMap V) (k : String) (v : V) :
    m.lookup k = some v ↔ (⟨k, v⟩ : Sigma fun _ : String => V) ∈ m.entries :=
  AList.mem_lookup_iff

theorem mem_of_lookup_some {V : Type} {m : GoMap V} {k : String} {v : V}
    (h : m.lookup k = some v) : k ∈ m := by
  rw [← AList.lookup_isSome, h]; rfl

theorem lookup_some_of_mem {V : Type} {m : GoMap V} {k : String}
    (h : k ∈ m) : ∃ v, m.lookup k = some v := by
  rw [← AList.lookup_isSome] at h
  exact Option.isSome_iff_exists.mp h

/-- Lookup form of well-formedness. -/
theorem wellFormed_iff (m : Memory) :
    WellFormed m ↔
      (∀ k, k ∈ m.store.channels ↔ k ∈ m.store.expiries)
      ∧ (∀ k c, m.store.channels.lookup k = some c →
          c ≠ nilChan ∧ c ≤ m.heap.next ∧ c ∉ m.heap.closed)
      ∧ (∀ k1 k2 c, m.store.channels.lookup k1 = some c →
          m.store.channels.lookup k2 = some c → k1 = k2)
      ∧ (∀ c ∈ m.heap.closed, c ≤ m.heap.next) := by
  unfold WellFormed
  rw [sameKeys_iff]
  constructor
  · rintro ⟨h1, h2, h3, h4⟩
    refine ⟨h1, ?_, ?_, h4⟩
    · intro k c hk
      exact h2 ⟨k, c⟩ ((lookup_some_iff_mem_entries _ _ _).mp hk)
    · intro k1 k2 c hk1 hk2
      exact h3 ⟨k1, c⟩ ((lookup_some_iff_mem_entries _ _ _).mp hk1)
        ⟨k2, c⟩ ((lookup_some_iff_mem_entries _ _ _).mp hk2) rfl
  · rintro ⟨h1, h2, h3, h4⟩
    refine ⟨h1, ?_, ?_, h4⟩
    · rintro ⟨k, c⟩ he
      exact h2 k c ((lookup_some_iff_mem_entries _ _ _).mpr he)
    · rintro ⟨k1, c1⟩ he1 ⟨k2, c2⟩ he2 hc
      simp only at hc
      subst hc
      exact h3 k1 k2 c1 ((lookup_some_iff_mem_entries _ _ _).mpr he1)
        ((lookup_some_iff_mem_entries _ _ _).mpr he2)

/-- Effect of one loop iteration that does not panic: an entry past its deadline
is deleted from both maps, any other entry leaves the memory as it was. -/
theorem reapEntry_done {now : Time} {m m1 : Memory} {id : String} {expiry : Time}
    (h : reapEntry now m id expiry = .done m1) :
    (After now expiry = true →
        m1.store.channels = m.store.channels.erase id
        ∧ m1.store.expiries = m.store.expiries.erase id)
    ∧ (After now expiry = false → m1 = m) := by
  unfold reapEntry at h
  by_cases ha : After now expiry = true
  · rw [if_pos ha] at h
    refine ⟨fun _ => ?_, fun hf => ?_⟩
    · cases hc : closeChan m.heap (m.store.channels.index id nilChan) with
      | error p => rw [hc] at h; cases h
      | ok hp =>
        rw [hc] at h
        simp only [Exec.done.injEq] at h
        subst h
        exact ⟨rfl, rfl⟩
    · rw [ha] at hf; cases hf
  · rw [if_neg ha] at h
    refine ⟨fun ht => absurd ht ha, fun _ => ?_⟩
    simp only [Exec.done.injEq] at h
    exact h.symm

/-- Lookups after the loop has visited the entries `es` without panicking. -/
theorem cleanupLoop_lookup (now : Time) :
    ∀ (es : List (Sigma fun _ : String => Time)) (m m' : Memory),
      cleanupLoop now es m = .done m' → ∀ k : String,
        ((∃ e ∈ es, e.1 = k ∧ After now e.2 = true) →
            m'.store.channels.lookup k = none ∧ m'.store.expiries.lookup k = none)
        ∧ ((¬ ∃ e ∈ es, e.1 = k ∧ After now e.2 = true) →
            m'.store.channels.lookup k = m.store.channels.lookup k
            ∧ m'.store.expiries.lookup k = m.store.expiries.lookup k) := by
  intro es
  induction es with
  | nil =>
    intro m m' h k
    simp only [cleanupLoop, Exec.done.injEq] at h
    subst h
    refine ⟨?_, fun _ => ⟨rfl, rfl⟩⟩
    rintro ⟨e, he, _⟩
    cases he
  | cons e es ih =>
    intro m m' h k
    simp only [cleanupLoop] at h
    cases h1 : reapEntry now m e.1 e.2 with
    | panicked p m1 => rw [h1] at h; cases h
    | done m1 =>
      rw [h1] at h
      have hstep := reapEntry_done h1
      have hrest := ih m1 m' h k
      by_cases htail : ∃ e' ∈ es, e'.1 = k ∧ After now e'.2 = true
      · refine ⟨fun _ => hrest.1 htail, fun hno => ?_⟩
        exfalso
        obtain ⟨e', he', hk'⟩ := htail
        exact hno ⟨e', List.mem_cons_of_mem _ he', hk'⟩
      · have hsame := hrest.2 htail
        by_cases hhead : e.1 = k ∧ After now e.2 = true
        · refine ⟨fun _ => ?_, fun hno => ?_⟩
          · obtain ⟨hc, hx⟩ := hstep.1 hhead.2
            rw [hsame.1, hsame.2, hc, hx, ← hhead.1]
            exact ⟨AList.lookup_erase _ _, AList.lookup_erase _ _⟩
          · exact absurd ⟨e, List.mem_cons_self _ _, hhead⟩ hno
        · refine ⟨fun hyes => ?_, fun _ => ?_⟩
          · exfalso
            obtain ⟨e', he', hk'⟩ := hyes
            rcases List.mem_cons.mp he' with rfl | hin
            · exact hhead hk'
            · exact htail ⟨e', hin, hk'⟩
          · rw [hsame.1, hsame.2]
            by_cases ha : After now e.2 = true
            · obtain ⟨hc, hx⟩ := hstep.1 ha
              have hne : k ≠ e.1 := fun hke => hhead ⟨hke.symm, ha⟩
              rw [hc, hx]
              exact ⟨AList.lookup_erase_ne hne, AList.lookup_erase_ne hne⟩
            · have hm : m1 = m := hstep.2 (by simpa using ha)
              rw [hm]
              exact ⟨rfl, rfl⟩

/-- After a pass that completes, an entry past its deadline is in neither map. -/
theorem cleanupExpired_lookup_expired {now : Time} {m m' : Memory}
    (h : cleanupExpired now m = .done m') {k : String} {t : Time}
    (hk : m.store.expiries.lookup k = some t) (ht : After now t = true) :
    m'.store.channels.lookup k = none ∧ m'.store.expiries.lookup k = none :=
  ((cleanupLoop_lookup now _ m m' h k).1
    ⟨⟨k, t⟩, (lookup_some_iff_mem_entries _ _ _).mp hk, rfl, ht⟩)

/-- After a pass that completes, a key with no deadline past is looked up as before. -/
theorem cleanupExpired_lookup_kept {now : Time} {m m' : Memory}
    (h : cleanupExpired now m = .done m') {k : String}
    (hk : ∀ t, m.store.expiries.lookup k = some t → After now t = false) :
    m'.store.channels.lookup k = m.store.channels.lookup k
    ∧ m'.store.expiries.lookup k = m.store.expiries.lookup k := by
  refine (cleanupLoop_lookup now _ m m' h k).2 ?_
  rintro ⟨⟨k', t⟩, he, hkk, ht⟩
  simp only at hkk ht
  subst hkk
  have := hk t ((lookup_some_iff_mem_entries _ _ _).mpr he)
  rw [this] at ht
  cases ht

/-- On well-formed memory one loop iteration at a registered entry never panics
and keeps the memory well-formed; it allocates nothing. -/
theorem reapEntry_wellFormed (now : Time) {m : Memory} {id : String} {expiry : Time}
    (hwf : WellFormed m) (hid : m.store.expiries.lookup id = some expiry) :
    ∃ m1, reapEntry now m id expiry = .done m1 ∧ WellFormed m1
      ∧ m1.heap.next = m.heap.next := by
  by_cases ha : After now expiry = true
  · obtain ⟨hkeys, hch, hinj, hcl⟩ := (wellFormed_iff m).mp hwf
    obtain ⟨c, hc⟩ := lookup_some_of_mem ((hkeys id).mpr (mem_of_lookup_some hid))
    obtain ⟨hnil, hle, hopen⟩ := hch id c hc
    have hidx : m.store.channels.index id nilChan = c := by
      simp [GoMap.index, hc]
    refine ⟨{ store := { m.store with
                         channels := m.store.channels.erase id
                         expiries := m.store.expiries.erase id }
              heap := { m.heap with closed := c :: m.heap.closed } }, ?_, ?_, rfl⟩
    · simp [reapEntry, ha, hidx, closeChan, hnil, hopen]
    · rw [wellFormed_iff]
      refine ⟨?_, ?_, ?_, ?_⟩
      · intro k
        simp only [AList.mem_erase]
        rw [hkeys k]
      · intro k c' hk
        simp only at hk
        by_cases hkid : k = id
        · subst hkid
          rw [AList.lookup_erase] at hk
          cases hk
        · rw [AList.lookup_erase_ne hkid] at hk
          obtain ⟨h1, h2, h3⟩ := hch k c' hk
          refine ⟨h1, h2, ?_⟩
          simp only [List.mem_cons, not_or]
          refine ⟨?_, h3⟩
          intro hcc
          subst hcc
          exact hkid (hinj k id c' hk hc)
      · intro k1 k2 c' h1 h2
        simp only at h1 h2
        have hk1 : k1 ≠ id := by
          intro hh; subst hh; rw [AList.lookup_erase] at h1; cases h1
        have hk2 : k2 ≠ id := by
          intro hh; subst hh; rw [AList.lookup_erase] at h2; cases h2
        rw [AList.lookup_erase_ne hk1] at h1
        rw [AList.lookup_erase_ne hk2] at h2
        exact hinj k1 k2 c' h1 h2
      · intro c' hc'
        simp only [List.mem_cons] at hc'
        rcases hc' with rfl | hc'
        · exact hle
        · exact hcl c' hc'
  · refine ⟨m, ?_, hwf, rfl⟩
    simp [reapEntry, ha]

/-- On well-formed memory the loop over distinct registered entries completes
without a panic and leaves the memory well-formed. -/
theorem cleanupLoop_wellFormed (now : Time) :
    ∀ (es : List (Sigma fun _ : String => Time)) (m : Memory),
      WellFormed m → es.NodupKeys →
      (∀ e ∈ es, m.store.expiries.lookup e.1 = some e.2) →
      ∃ m', cleanupLoop now es m = .done m' ∧ WellFormed m'
        ∧ m'.heap.next = m.heap.next := by
  intro es
  induction es with
  | nil =>
    intro m hwf _ _
    exact ⟨m, rfl, hwf, rfl⟩
  | cons e es ih =>
    intro m hwf hnd hreg
    obtain ⟨hhead, htail⟩ := List.nodupKeys_cons.mp hnd
    obtain ⟨m1, h1, hwf1, hn1⟩ :=
      reapEntry_wellFormed now hwf (hreg e (List.mem_cons_self _ _))
    have hreg1 : ∀ e' ∈ es, m1.store.expiries.lookup e'.1 = some e'.2 := by
      intro e' he'
      have horig := hreg e' (List.mem_cons_of_mem _ he')
      have hne : e'.1 ≠ e.1 := by
        intro heq
        apply hhead
        rw [← heq]
        exact List.mem_keys_of_mem he'
      by_cases ha : After now e.2 = true
      · rw [((reapEntry_done h1).1 ha).2, AList.lookup_erase_ne hne]
        exact horig
      · rw [(reapEntry_done h1).2 (by simpa using ha)]
        exact horig
    obtain ⟨m', h', hwf', hn'⟩ := ih m1 hwf1 htail hreg1
    refine ⟨m', ?_, hwf', hn'.trans hn1⟩
    simp only [cleanupLoop, h1]
    exact h'

/-- On well-formed memory a reaper pass completes without a panic, leaves the
memory well-formed and allocates nothing. -/
theorem cleanupExpired_wellFormed (now : Time) (m : Memory) (hwf : WellFormed m) :
    ∃ m', cleanupExpired now m = .done m' ∧ WellFormed m'
      ∧ m'.heap.next = m.heap.next :=
  cleanupLoop_wellFormed now m.store.expiries.entries m hwf m.store.expiries.nodupKeys
    (fun e he => (lookup_some_iff_mem_entries _ e.1 e.2).mpr (by cases e; exact he))

/-- A loop iteration that panics leaves the memory as it was. -/
theorem reapEntry_panicked {now : Time} {m m1 : Memory} {id : String} {expiry : Time}
    {p : Panic} (h : reapEntry now m id expiry = .panicked p m1) : m1 = m := by
  unfold reapEntry at h
  by_cases ha : After now expiry = true
  · rw [if_pos ha] at h
    cases hc : closeChan m.heap (m.store.channels.index id nilChan) with
    | error q =>
      rw [hc] at h
      simp only [Exec.panicked.injEq] at h
      exact h.2.symm
    | ok hp => rw [hc] at h; cases h
  · rw [if_neg ha] at h
    cases h

theorem sameKeys_Delete (s : CorrelationStore) (id : String) (h : SameKeys s) :
    SameKeys (s.Delete id) := by
  rw [sameKeys_iff] at h ⊢
  intro k
  simp only [CorrelationStore.Delete, AList.mem_erase]
  rw [h k]

theorem sameKeys_Set (s : CorrelationStore) (id : String) (ch : Chan) (now : Time)
    (h : SameKeys s) : SameKeys (s.Set id ch now) := by
  rw [sameKeys_iff] at h ⊢
  intro k
  simp only [CorrelationStore.Set, AList.mem_insert]
  rw [h k]

theorem sameKeys_New (d : Duration) : SameKeys (NewCorrelationStore d) := by
  rw [sameKeys_iff]
  intro k
  simp [NewCorrelationStore]

/-- One loop iteration keeps the key sets equal, whether it completes or panics. -/
theorem reapEntry_sameKeys (now : Time) (m : Memory) (id : String) (expiry : Time)
    (h : SameKeys m.store) : SameKeys (reapEntry now m id expiry).mem.store := by
  cases hr : reapEntry now m id expiry with
  | panicked p m1 =>
    rw [reapEntry_panicked hr]
    exact h
  | done m1 =>
    by_cases ha : After now expiry = true
    · obtain ⟨hc, hx⟩ := (reapEntry_done hr).1 ha
      rw [sameKeys_iff] at h ⊢
      intro k
      simp only [Exec.mem]
      rw [hc, hx]
      simp only [AList.mem_erase]
      rw [h k]
    · rw [(reapEntry_done hr).2 (by simpa using ha)]
      exact h

/-- The loop keeps the key sets equal, whether it completes or panics. -/
theorem cleanupLoop_sameKeys (now : Time) :
    ∀ (es : List (Sigma fun _ : String => Time)) (m : Memory),
      SameKeys m.store → SameKeys (cleanupLoop now es m).mem.store := by
  intro es
  induction es with
  | nil => intro m h; exact h
  | cons e es ih =>
    intro m h
    have h1 := reapEntry_sameKeys now m e.1 e.2 h
    simp only [cleanupLoop]
    cases hr : reapEntry now m e.1 e.2 with
    | panicked p m1 => rw [hr] at h1; exact h1
    | done m1 => rw [hr] at h1; exact ih m1 h1

/-- After a loop that completes every channel lookup is either empty or as before. -/
theorem cleanupLoop_channels_sub {now : Time}
    {es : List (Sigma fun _ : String => Time)} {m m' : Memory}
    (h : cleanupLoop now es m = .done m') (k : String) (c : Chan)
    (hk : m'.store.channels.lookup k = some c) : m.store.channels.lookup k = some c := by
  by_cases hx : ∃ e ∈ es, e.1 = k ∧ After now e.2 = true
  · rw [((cleanupLoop_lookup now es m m' h k).1 hx).1] at hk
    cases hk
  · rw [((cleanupLoop_lookup now es m m' h k).2 hx).1] at hk
    exact hk

/-- When both maps have the same keys and no stored channel is nil, the loop over
distinct registered entries never closes the nil channel. -/
theorem cleanupLoop_no_nil_close (now : Time) :
    ∀ (es : List (Sigma fun _ : String => Time)) (m : Memory),
      SameKeys m.store →
      (∀ k c, m.store.channels.lookup k = some c → c ≠ nilChan) →
      es.NodupKeys →
      (∀ e ∈ es, m.store.expiries.lookup e.1 = some e.2) →
      ∀ m', cleanupLoop now es m ≠ .panicked .closeOfNilChannel m' := by
  intro es
  induction es with
  | nil => intro m _ _ _ _ m' h; cases h
  | cons e es ih =>
    intro m hsk hnn hnd hreg m' hbad
    obtain ⟨hhead, htail⟩ := List.nodupKeys_cons.mp hnd
    simp only [cleanupLoop] at hbad
    cases hr : reapEntry now m e.1 e.2 with
    | panicked p m1 =>
      rw [hr] at hbad
      simp only [Exec.panicked.injEq] at hbad
      obtain ⟨hp, _⟩ := hbad
      subst hp
      obtain ⟨c, hc⟩ := lookup_some_of_mem
        (((sameKeys_iff m.store).mp hsk e.1).mpr
          (mem_of_lookup_some (hreg e (List.mem_cons_self _ _))))
      have hcn := hnn e.1 c hc
      unfold reapEntry at hr
      by_cases ha : After now e.2 = true
      · rw [if_pos ha] at hr
        have hidx : m.store.channels.index e.1 nilChan = c := by simp [GoMap.index, hc]
        rw [hidx] at hr
        unfold closeChan at hr
        rw [if_neg hcn] at hr
        by_cases hcl : c ∈ m.heap.closed
        · rw [if_pos hcl] at hr
          simp only [Exec.panicked.injEq] at hr
          cases hr.1
        · rw [if_neg hcl] at hr
          cases hr
      · rw [if_neg ha] at hr
        cases hr
    | done m1 =>
      rw [hr] at hbad
      have hsk1 : SameKeys m1.store := by
        have := reapEntry_sameKeys now m e.1 e.2 hsk
        rw [hr] at this
        exact this
      have hsub : ∀ k c, m1.store.channels.lookup k = some c →
          m.store.channels.lookup k = some c := by
        intro k c hk
        by_cases ha : After now e.2 = true
        · rw [((reapEntry_done hr).1 ha).1] at hk
          by_cases hke : k = e.1
          · subst hke; rw [AList.lookup_erase] at hk; cases hk
          · rw [AList.lookup_erase_ne hke] at hk; exact hk
        · rw [(reapEntry_done hr).2 (by simpa using ha)] at hk
          exact hk
      have hreg1 : ∀ e' ∈ es, m1.store.expiries.lookup e'.1 = some e'.2 := by
        intro e' he'
        have horig := hreg e' (List.mem_cons_of_mem _ he')
        have hne : e'.1 ≠ e.1 := by
          intro heq
          apply hhead
          rw [← heq]
          exact List.mem_keys_of_mem he'
        by_cases ha : After now e.2 = true
        · rw [((reapEntry_done hr).1 ha).2, AList.lookup_erase_ne hne]
          exact horig
        · rw [(reapEntry_done hr).2 (by simpa using ha)]
          exact horig
      exact ih m1 hsk1 (fun k c hk => hnn k c (hsub k c hk)) htail hreg1 m' hbad

/-- Store calls with non-nil channels keep the key sets equal and the stored
channels non-nil, and no reaper pass among them closes the nil channel. -/
theorem runOps_invariant :
    ∀ (ops : List StoreOp) (m : Memory),
      SameKeys m.store →
      (∀ k c, m.store.channels.lookup k = some c → c ≠ nilChan) →
      (∀ id ch now, StoreOp.set id ch now ∈ ops → ch ≠ nilChan) →
      SameKeys (runOps ops m).mem.store
      ∧ (∀ m', runOps ops m ≠ .panicked .closeOfNilChannel m')
      ∧ (∀ m', runOps ops m = .done m' →
          ∀ k c, m'.store.channels.lookup k = some c → c ≠ nilChan) := by
  intro ops
  induction ops with
  | nil =>
    intro m hsk hnn _
    refine ⟨hsk, ?_, ?_⟩
    · intro m' h; cases h
    · intro m' h
      simp only [runOps, Exec.done.injEq] at h
      subst h
      exact hnn
  | cons op ops ih =>
    intro m hsk hnn hops
    have hops' : ∀ id ch now, StoreOp.set id ch now ∈ ops → ch ≠ nilChan :=
      fun id ch now h => hops id ch now (List.mem_cons_of_mem _ h)
    cases op with
    | set id ch now =>
      have hch : ch ≠ nilChan := hops id ch now (List.mem_cons_self _ _)
      simp only [runOps, StoreOp.apply]
      refine ih _ (sameKeys_Set _ _ _ _ hsk) ?_ hops'
      intro k c hk
      simp only [CorrelationStore.Set] at hk
      by_cases hkid : k = id
      · subst hkid
        rw [AList.lookup_insert] at hk
        cases hk
        exact hch
      · rw [AList.lookup_insert_ne hkid] at hk
        exact hnn k c hk
    | delete id =>
      simp only [runOps, StoreOp.apply]
      refine ih _ (sameKeys_Delete _ _ hsk) ?_ hops'
      intro k c hk
      simp only [CorrelationStore.Delete] at hk
      by_cases hkid : k = id
      · subst hkid; rw [AList.lookup_erase] at hk; cases hk
      · rw [AList.lookup_erase_ne hkid] at hk; exact hnn k c hk
    | reap now =>
      have hsk1 := cleanupLoop_sameKeys now m.store.expiries.entries m hsk
      have hno := cleanupLoop_no_nil_close now m.store.expiries.entries m hsk hnn
        m.store.expiries.nodupKeys
        (fun e he => (lookup_some_iff_mem_entries _ e.1 e.2).mpr (by cases e; exact he))
      simp only [runOps, StoreOp.apply, cleanupExpired]
      cases hr : cleanupLoop now m.store.expiries.entries m with
      | panicked p m1 =>
        rw [hr] at hsk1
        refine ⟨hsk1, ?_, ?_⟩
        · intro m' h
          simp only [Exec.panicked.injEq] at h
          obtain ⟨hp, hm⟩ := h
          subst hp
          exact hno m1 hr
        · intro m' h; cases h
      | done m1 =>
        rw [hr] at hsk1
        exact ih m1 hsk1
          (fun k c hk => hnn k c (cleanupLoop_channels_sub hr k c hk)) hops'

/-- On well-formed memory, the loop iteration at a registered entry past its
deadline closes the registered channel and deletes the entry from both maps. -/
theorem reapEntry_expired_eq (now : Time) {m : Memory} {id : String} {expiry : Time}
    {c : Chan} (hwf : WellFormed m) (hc : m.store.channels.lookup id = some c)
    (ha : After now expiry = true) :
    reapEntry now m id expiry =
      .done { store := { m.store with
                         channels := m.store.channels.erase id
                         expiries := m.store.expiries.erase id }
              heap := { m.heap with closed := c :: m.heap.closed } } := by
  obtain ⟨_, hch, _, _⟩ := (wellFormed_iff m).mp hwf
  obtain ⟨hnil, _, hopen⟩ := hch id c hc
  have hidx : m.store.channels.index id nilChan = c := by simp [GoMap.index, hc]
  simp [reapEntry, ha, hidx, closeChan, hnil, hopen]

/-- On well-formed memory the loop closes the channel of every visited entry
past its deadline, and reopens nothing. -/
theorem cleanupLoop_closes (now : Time) :
    ∀ (es : List (Sigma fun _ : String => Time)) (m m' : Memory),
      WellFormed m → es.NodupKeys →
      (∀ e ∈ es, m.store.expiries.lookup e.1 = some e.2) →
      cleanupLoop now es m = .done m' →
      (∀ c ∈ m.heap.closed, c ∈ m'.heap.closed)
      ∧ (∀ e ∈ es, After now e.2 = true →
          ∀ c, m.store.channels.lookup e.1 = some c → c ∈ m'.heap.closed) := by
  intro es
  induction es with
  | nil =>
    intro m m' _ _ _ h
    simp only [cleanupLoop, Exec.done.injEq] at h
    subst h
    refine ⟨fun c hc => hc, ?_⟩
    intro e he
    cases he
  | cons e es ih =>
    intro m m' hwf hnd hreg h
    obtain ⟨hhead, htail⟩ := List.nodupKeys_cons.mp hnd
    obtain ⟨m1, h1, hwf1, _⟩ :=
      reapEntry_wellFormed now hwf (hreg e (List.mem_cons_self _ _))
    simp only [cleanupLoop, h1] at h
    have hne : ∀ e' ∈ es, e'.1 ≠ e.1 := by
      intro e' he' heq
      apply hhead
      rw [← heq]
      exact List.mem_keys_of_mem he'
    have hreg1 : ∀ e' ∈ es, m1.store.expiries.lookup e'.1 = some e'.2 := by
      intro e' he'
      have horig := hreg e' (List.mem_cons_of_mem _ he')
      by_cases ha : After now e.2 = true
      · rw [((reapEntry_done h1).1 ha).2, AList.lookup_erase_ne (hne e' he')]
        exact horig
      · rw [(reapEntry_done h1).2 (by simpa using ha)]
        exact horig
    obtain ⟨hmono, hclosed⟩ := ih m1 m' hwf1 htail hreg1 h
    have hmono1 : ∀ c ∈ m.heap.closed, c ∈ m1.heap.closed := by
      intro c hc
      by_cases ha : After now e.2 = true
      · obtain ⟨hkeys, _, _, _⟩ := (wellFormed_iff m).mp hwf
        obtain ⟨c0, hc0⟩ := lookup_some_of_mem
          ((hkeys e.1).mpr (mem_of_lookup_some (hreg e (List.mem_cons_self _ _))))
        rw [reapEntry_expired_eq now hwf hc0 ha] at h1
        simp only [Exec.done.injEq] at h1
        subst h1
        exact List.mem_cons_of_mem _ hc
      · rw [(reapEntry_done h1).2 (by simpa using ha)]
        exact hc
    refine ⟨fun c hc => hmono c (hmono1 c hc), ?_⟩
    intro e' he' ha' c hc
    rcases List.mem_cons.mp he' with rfl | hin
    · apply hmono
      rw [reapEntry_expired_eq now hwf hc ha'] at h1
      simp only [Exec.done.injEq] at h1
      subst h1
      exact List.mem_cons_self _ _
    · refine hclosed e' hin ha' c ?_
      by_cases ha : After now e.2 = true
      · rw [((reapEntry_done h1).1 ha).1, AList.lookup_erase_ne (hne e' hin)]
        exact hc
      · rw [(reapEntry_done h1).2 (by simpa using ha)]
        exact hc

/-- On well-formed memory a reaper pass closes the channel of every entry past
its deadline. -/
theorem cleanupExpired_closes {now : Time} {m m' : Memory} (hwf : WellFormed m)
    (h : cleanupExpired now m = .done m') {k : String} {t : Time} {c : Chan}
    (hk : m.store.expiries.lookup k = some t) (ht : After now t = true)
    (hc : m.store.channels.lookup k = some c) : c ∈ m'.heap.closed :=
  (cleanupLoop_closes now m.store.expiries.entries m m' hwf m.store.expiries.nodupKeys
    (fun e he => (lookup_some_iff_mem_entries _ e.1 e.2).mpr (by cases e; exact he)) h).2
    ⟨k, t⟩ ((lookup_some_iff_mem_entries _ _ _).mp hk) ht c hc

/-- One loop iteration, completed or not, closes only a channel that was
registered, and registers nothing. -/
theorem reapEntry_sub (now : Time) (m : Memory) (id : String) (expiry : Time) :
    (∀ c ∈ (reapEntry now m id expiry).mem.heap.closed,
        c ∈ m.heap.closed ∨ ∃ k, m.store.channels.lookup k = some c)
    ∧ (∀ k c, (reapEntry now m id expiry).mem.store.channels.lookup k = some c →
        m.store.channels.lookup k = some c) := by
  cases hr : reapEntry now m id expiry with
  | panicked p m1 =>
    rw [reapEntry_panicked hr]
    exact ⟨fun c hc => Or.inl hc, fun k c hk => hk⟩
  | done m1 =>
    by_cases ha : After now expiry = true
    · refine ⟨?_, ?_⟩
      · intro c hc
        simp only [Exec.mem] at hc
        unfold reapEntry at hr
        rw [if_pos ha] at hr
        cases hcl : closeChan m.heap (m.store.channels.index id nilChan) with
        | error q => rw [hcl] at hr; cases hr
        | ok hp =>
          rw [hcl] at hr
          simp only [Exec.done.injEq] at hr
          subst hr
          simp only at hc
          unfold closeChan at hcl
          by_cases hn : m.store.channels.index id nilChan = nilChan
          · rw [if_pos hn] at hcl; cases hcl
          · rw [if_neg hn] at hcl
            by_cases hin : m.store.channels.index id nilChan ∈ m.heap.closed
            · rw [if_pos hin] at hcl; cases hcl
            · rw [if_neg hin] at hcl
              simp only [Except.ok.injEq] at hcl
              subst hcl
              simp only [List.mem_cons] at hc
              rcases hc with rfl | hc
              · right
                refine ⟨id, ?_⟩
                cases hl : m.store.channels.lookup id with
                | none => simp [GoMap.index, hl] at hn
                | some c0 => simp [GoMap.index, hl]
              · exact Or.inl hc
      · intro k c hk
        simp only [Exec.mem] at hk
        rw [((reapEntry_done hr).1 ha).1] at hk
        by_cases hke : k = id
        · subst hke; rw [AList.lookup_erase] at hk; cases hk
        · rw [AList.lookup_erase_ne hke] at hk; exact hk
    · rw [(reapEntry_done hr).2 (by simpa using ha)]
      exact ⟨fun c hc => Or.inl hc, fun k c hk => hk⟩

/-- The loop, completed or not, closes only channels that were registered, and
registers nothing. -/
theorem cleanupLoop_sub (now : Time) :
    ∀ (es : List (Sigma fun _ : String => Time)) (m : Memory),
      (∀ c ∈ (cleanupLoop now es m).mem.heap.closed,
          c ∈ m.heap.closed ∨ ∃ k, m.store.channels.lookup k = some c)
      ∧ (∀ k c, (cleanupLoop now es m).mem.store.channels.lookup k = some c →
          m.store.channels.lookup k = some c) := by
  intro es
  induction es with
  | nil =>
    intro m
    exact ⟨fun c hc => Or.inl hc, fun k c hk => hk⟩
  | cons e es ih =>
    intro m
    have h1 := reapEntry_sub now m e.1 e.2
    simp only [cleanupLoop]
    cases hr : reapEntry now m e.1 e.2 with
    | panicked p m1 =>
      rw [hr] at h1
      exact h1
    | done m1 =>
      rw [hr] at h1
      simp only [Exec.mem] at h1
      obtain ⟨ihc, ihs⟩ := ih m1
      refine ⟨?_, fun k c hk => h1.2 k c (ihs k c hk)⟩
      intro c hc
      rcases ihc c hc with h | ⟨k, hk⟩
      · exact h1.1 c h
      · exact Or.inr ⟨k, h1.2 k c hk⟩

/-- The loop may visit the entries in any order (Go leaves the order of a map
`range` unspecified): two completed runs over lists with the same elements end
with the same lookups in both maps. -/
theorem cleanupLoop_order_irrelevant (now : Time)
    (es1 es2 : List (Sigma fun _ : String => Time)) (m m1 m2 : Memory)
    (hperm : ∀ e, e ∈ es1 ↔ e ∈ es2)
    (h1 : cleanupLoop now es1 m = .done m1) (h2 : cleanupLoop now es2 m = .done m2)
    (k : String) :
    m1.store.channels.lookup k = m2.store.channels.lookup k
    ∧ m1.store.expiries.lookup k = m2.store.expiries.lookup k := by
  have l1 := cleanupLoop_lookup now es1 m m1 h1 k
  have l2 := cleanupLoop_lookup now es2 m m2 h2 k
  by_cases hx : ∃ e ∈ es1, e.1 = k ∧ After now e.2 = true
  · have hx2 : ∃ e ∈ es2, e.1 = k ∧ After now e.2 = true := by
      obtain ⟨e, he, hk⟩ := hx
      exact ⟨e, (hperm e).mp he, hk⟩
    rw [(l1.1 hx).1, (l1.1 hx).2, (l2.1 hx2).1, (l2.1 hx2).2]
    exact ⟨rfl, rfl⟩
  · have hx2 : ¬ ∃ e ∈ es2, e.1 = k ∧ After now e.2 = true := by
      rintro ⟨e, he, hk⟩
      exact hx ⟨e, (hperm e).mpr he, hk⟩
    rw [(l1.2 hx).1, (l1.2 hx).2, (l2.2 hx2).1, (l2.2 hx2).2]
    exact ⟨rfl, rfl⟩

/-! ## Well-formedness is an invariant of the process -/

theorem wellFormed_init (d : Duration) : WellFormed (initMemory d) := by
  rw [wellFormed_iff]
  refine ⟨?_, ?_, ?_, ?_⟩
  · intro k; simp [initMemory, NewCorrelationStore]
  · intro k c hk; simp [initMemory, NewCorrelationStore] at hk
  · intro k1 k2 c hk; simp [initMemory, NewCorrelationStore] at hk
  · intro c hc; simp [initMemory] at hc

theorem wellFormed_Delete (m : Memory) (id : String) (hwf : WellFormed m) :
    WellFormed { m with store := m.store.Delete id } := by
  obtain ⟨hkeys, hch, hinj, hcl⟩ := (wellFormed_iff m).mp hwf
  have hsub : ∀ k c, (m.store.Delete id).channels.lookup k = some c →
      m.store.channels.lookup k = some c := by
    intro k c hk
    simp only [CorrelationStore.Delete] at hk
    by_cases hkid : k = id
    · subst hkid; rw [AList.lookup_erase] at hk; cases hk
    · rw [AList.lookup_erase_ne hkid] at hk; exact hk
  rw [wellFormed_iff]
  refine ⟨?_, ?_, ?_, hcl⟩
  · intro k
    simp only [CorrelationStore.Delete, AList.mem_erase]
    rw [hkeys k]
  · intro k c hk
    exact hch k c (hsub k c hk)
  · intro k1 k2 c h1 h2
    exact hinj k1 k2 c (hsub k1 c h1) (hsub k2 c h2)

/-- Registering a freshly made channel keeps the memory well-formed. -/
theorem wellFormed_register (m : Memory) (id : String) (now : Time) (hwf : WellFormed m) :
    WellFormed { store := m.store.Set id (makeChan m.heap).1 now, heap := (makeChan m.heap).2 } := by
  obtain ⟨hkeys, hch, hinj, hcl⟩ := (wellFormed_iff m).mp hwf
  have hcases : ∀ k c, (m.store.Set id (m.heap.next + 1) now).channels.lookup k = some c →
      (k = id ∧ c = m.heap.next + 1) ∨ (k ≠ id ∧ m.store.channels.lookup k = some c) := by
    intro k c hk
    simp only [CorrelationStore.Set] at hk
    by_cases hkid : k = id
    · subst hkid
      rw [AList.lookup_insert] at hk
      exact Or.inl ⟨rfl, (Option.some.inj hk).symm⟩
    · rw [AList.lookup_insert_ne hkid] at hk
      exact Or.inr ⟨hkid, hk⟩
  rw [wellFormed_iff]
  simp only [makeChan]
  refine ⟨?_, ?_, ?_, ?_⟩
  · intro k
    simp only [CorrelationStore.Set, AList.mem_insert]
    rw [hkeys k]
  · intro k c hk
    rcases hcases k c hk with ⟨_, rfl⟩ | ⟨_, hold⟩
    · refine ⟨by simp [nilChan], le_refl _, ?_⟩
      intro hin
      exact Nat.not_succ_le_self _ (hcl _ hin)
    · obtain ⟨h1, h2, h3⟩ := hch k c hold
      exact ⟨h1, Nat.le_succ_of_le h2, h3⟩
  · intro k1 k2 c h1 h2
    rcases hcases k1 c h1 with ⟨rfl, rfl⟩ | ⟨_, hold1⟩
    · rcases hcases k2 _ h2 with ⟨rfl, _⟩ | ⟨_, hold2⟩
      · rfl
      · exact absurd (hch k2 _ hold2).2.1 (Nat.not_succ_le_self _)
    · rcases hcases k2 c h2 with ⟨rfl, rfl⟩ | ⟨_, hold2⟩
      · exact absurd (hch k1 _ hold1).2.1 (Nat.not_succ_le_self _)
      · exact hinj k1 k2 c hold1 hold2
  · intro c hc
    exact Nat.le_succ_of_le (hcl c hc)

/-- The handler keeps the memory well-formed, whatever it answers. -/
theorem Capture_wellFormed (env : Env) (bound : Option CaptureRequest) (uuid : String)
    (now : Time) (m : Memory) (hwf : WellFormed m) :
    WellFormed (Capture env bound uuid now m).mem := by
  have hreg := wellFormed_register m uuid now hwf
  cases bound with
  | none => exact hwf
  | some request =>
    cases hm : env.Marshal { request with CorrelationID := uuid } with
    | none => simpa [Capture, hm] using hreg
    | some requestJSON =>
      cases hp : env.Client { Topic := "payment-requests", Key := uuid, Value := requestJSON } <;>
        simpa [Capture, Produce, hm, hp] using hreg

/-- Every scheduled step keeps the memory well-formed. -/
theorem step_wellFormed (env : Env) (a : Action) (s s' : Sys) (hwf : WellFormed s.mem)
    (h : step env a s = some s') : WellFormed s'.mem := by
  cases hp : s.panic with
  | some p => simp [step, hp] at h
  | none =>
    cases a with
    | timer =>
      simp only [step, hp, timerStep] at h
      cases hc : s.capture with
      | selecting id ch =>
        rw [hc] at h
        simp only [Option.some.injEq] at h
        subst h
        exact hwf
      | timedOut id => rw [hc] at h; cases h
      | responded r => rw [hc] at h; cases h
    | capture =>
      simp only [step, hp, captureStep] at h
      cases hc : s.capture with
      | selecting id ch =>
        rw [hc] at h
        by_cases hcl : ch ∈ s.mem.heap.closed
        · simp only [hcl, if_true, Option.some.injEq] at h
          subst h
          exact hwf
        · simp [hcl] at h
      | timedOut id =>
        rw [hc] at h
        simp only [Option.some.injEq] at h
        subst h
        exact wellFormed_Delete s.mem id hwf
      | responded r => rw [hc] at h; cases h
    | tick now =>
      obtain ⟨m', hrun, hwf', _⟩ := cleanupExpired_wellFormed now s.mem hwf
      simp only [step, hp, tickStep, hrun, Option.some.injEq] at h
      subst h
      exact hwf'
    | dispatch =>
      simp only [step, hp, dispatchStep] at h
      cases hd : s.dispatcher with
      | entered msg =>
        rw [hd] at h
        cases hl : s.mem.store.channels.lookup msg.Key with
        | none =>
          simp only [CorrelationStore.Get, hl, Option.some.injEq] at h
          subst h
          exact hwf
        | some ch =>
          simp only [CorrelationStore.Get, hl, Option.some.injEq] at h
          subst h
          exact hwf
      | found msg ch =>
        rw [hd] at h
        cases hu : env.Unmarshal msg.Value with
        | none =>
          simp only [hu, Option.some.injEq] at h
          subst h
          exact hwf
        | some r =>
          simp only [hu, Option.some.injEq] at h
          subst h
          exact hwf
      | sending id ch r =>
        rw [hd] at h
        by_cases hn : ch = nilChan
        · simp [hn] at h
        · by_cases hcl : ch ∈ s.mem.heap.closed
          · simp only [hn, hcl, if_true, if_false, Option.some.injEq] at h
            subst h
            exact hwf
          · cases hc : s.capture with
            | selecting id2 ch2 =>
              by_cases hch : ch2 = ch
              · simp only [hn, hcl, hc, hch, if_true, if_false, Option.some.injEq] at h
                subst h
                exact hwf
              · simp [hn, hcl, hc, hch] at h
            | timedOut id2 => simp [hn, hcl, hc] at h
            | responded r2 => simp [hn, hcl, hc] at h
      | sent id =>
        rw [hd] at h
        simp only [Option.some.injEq] at h
        subst h
        exact wellFormed_Delete s.mem id hwf
      | returned => rw [hd] at h; cases h

/-! ## The reaper pass (claims C3, C4) -/

/-- C3, as stated, fails: a reaper pass at instant `now` keeps an entry whose
deadline is exactly `now`, because the loop tests `now.After(expiry)`. In
`twoPending` token `T1` has deadline 10 and survives the pass at instant 10. -/
theorem c3_deadline_equal_now_survives :
    ¬ (∀ (now : Time) (m m' : Memory), WellFormed m → cleanupExpired now m = .done m' →
        ∀ (k : String) (t : Time), m.store.expiries.lookup k = some t → t ≤ now →
          m'.store.expiries.lookup k = none) := by
  intro h
  have hT1 := h 10 twoPending twoPending (by decide) rfl "T1" 10 (by decide) (by decide)
  revert hT1
  decide

/-- C3, amended: on a well-formed store a reaper pass at `now` completes and
removes from both maps every entry whose deadline is strictly before `now`, so no
such entry remains; an entry whose deadline is exactly `now` is kept, with its
channel. -/
theorem cleanupExpired_removes_strictly_expired (now : Time) (m : Memory)
    (hwf : WellFormed m) :
    ∃ m', cleanupExpired now m = .done m'
      ∧ (∀ (k : String) (t : Time), m.store.expiries.lookup k = some t → t < now →
          m'.store.channels.lookup k = none ∧ m'.store.expiries.lookup k = none)
      ∧ (∀ (k : String) (t : Time), m'.store.expiries.lookup k = some t → now ≤ t)
      ∧ (∀ k : String, m.store.expiries.lookup k = some now →
          m'.store.expiries.lookup k = some now
          ∧ m'.store.channels.lookup k = m.store.channels.lookup k) := by
  obtain ⟨m', hrun, _, _⟩ := cleanupExpired_wellFormed now m hwf
  refine ⟨m', hrun, ?_, ?_, ?_⟩
  · intro k t hk hlt
    exact cleanupExpired_lookup_expired hrun hk (by simp [After, hlt])
  · intro k t hk'
    by_contra hlt
    have hlt' : t < now := lt_of_not_ge hlt
    cases hold : m.store.expiries.lookup k with
    | none =>
      have hkeep := cleanupExpired_lookup_kept hrun (k := k)
        (fun t' ht' => by rw [hold] at ht'; cases ht')
      rw [hkeep.2, hold] at hk'
      cases hk'
    | some t0 =>
      by_cases ha : After now t0 = true
      · rw [(cleanupExpired_lookup_expired hrun hold ha).2] at hk'
        cases hk'
      · have hkeep := cleanupExpired_lookup_kept hrun (k := k)
          (fun t' ht' => by
            rw [hold] at ht'
            cases ht'
            simpa using ha)
        rw [hkeep.2, hold] at hk'
        cases hk'
        exact ha (by simp [After, hlt'])
  · intro k hk
    have hkeep := cleanupExpired_lookup_kept hrun (k := k)
      (fun t' ht' => by
        rw [hk] at ht'
        cases ht'
        simp [After])
    exact ⟨hkeep.2.trans hk, hkeep.1⟩

/-- Evaluation of the amended C3 on `twoPending` at instant 20: `T1` (deadline 10)
is removed, `T2` (deadline 20) is kept. -/
theorem cleanupExpired_removes_strictly_expired_witness :
    WellFormed twoPending
    ∧ ∃ m', cleanupExpired 20 twoPending = .done m'
      ∧ (∀ (k : String) (t : Time), twoPending.store.expiries.lookup k = some t → t < 20 →
          m'.store.channels.lookup k = none ∧ m'.store.expiries.lookup k = none)
      ∧ (∀ (k : String) (t : Time), m'.store.expiries.lookup k = some t → 20 ≤ t)
      ∧ (∀ k : String, twoPending.store.expiries.lookup k = some 20 →
          m'.store.expiries.lookup k = some 20
          ∧ m'.store.channels.lookup k = twoPending.store.channels.lookup k) :=
  ⟨by decide, cleanupExpired_removes_strictly_expired 20 twoPending (by decide)⟩

/-- C4: on a well-formed store a reaper pass at `now` completes; it removes from
both maps every entry whose deadline is earlier than `now`; every entry whose
deadline is later than `now` stays with the same deadline and the same channel,
which is not closed; every entry present afterwards was present before with the
same value (nothing is added); with no pending entry the pass changes nothing. -/
theorem cleanupExpired_frame (now : Time) (m : Memory) (hwf : WellFormed m) :
    ∃ m', cleanupExpired now m = .done m'
      ∧ (∀ (k : String) (t : Time), m.store.expiries.lookup k = some t → t < now →
          m'.store.channels.lookup k = none ∧ m'.store.expiries.lookup k = none)
      ∧ (∀ (k : String) (t : Time), m.store.expiries.lookup k = some t → now < t →
          m'.store.expiries.lookup k = some t
          ∧ ∃ c, m.store.channels.lookup k = some c
              ∧ m'.store.channels.lookup k = some c ∧ c ∉ m'.heap.closed)
      ∧ (∀ (k : String) (c : Chan), m'.store.channels.lookup k = some c →
          m.store.channels.lookup k = some c)
      ∧ (∀ (k : String) (t : Time), m'.store.expiries.lookup k = some t →
          m.store.expiries.lookup k = some t)
      ∧ (m.store.expiries.entries = [] → m' = m) := by
  obtain ⟨m', hrun, hwf', _⟩ := cleanupExpired_wellFormed now m hwf
  have hcases : ∀ k : String,
      (m'.store.channels.lookup k = none ∧ m'.store.expiries.lookup k = none)
      ∨ (m'.store.channels.lookup k = m.store.channels.lookup k
          ∧ m'.store.expiries.lookup k = m.store.expiries.lookup k) := by
    intro k
    by_cases hx : ∃ t, m.store.expiries.lookup k = some t ∧ After now t = true
    · obtain ⟨t, hk, ht⟩ := hx
      exact Or.inl (cleanupExpired_lookup_expired hrun hk ht)
    · refine Or.inr (cleanupExpired_lookup_kept hrun ?_)
      intro t hk
      by_contra ht
      exact hx ⟨t, hk, by simpa using ht⟩
  refine ⟨m', hrun, ?_, ?_, ?_, ?_, ?_⟩
  · intro k t hk hlt
    exact cleanupExpired_lookup_expired hrun hk (by simp [After, hlt])
  · intro k t hk hlt
    have hkeep := cleanupExpired_lookup_kept hrun (k := k)
      (fun t' ht' => by
        rw [hk] at ht'
        cases ht'
        simp [After, le_of_lt hlt])
    obtain ⟨hkeys, _, _, _⟩ := (wellFormed_iff m).mp hwf
    obtain ⟨c, hc⟩ := lookup_some_of_mem ((hkeys k).mpr (mem_of_lookup_some hk))
    obtain ⟨_, hch', _, _⟩ := (wellFormed_iff m').mp hwf'
    have hc' : m'.store.channels.lookup k = some c := hkeep.1.trans hc
    exact ⟨hkeep.2.trans hk, c, hc, hc', (hch' k c hc').2.2⟩
  · intro k c hk
    rcases hcases k with h | h
    · rw [h.1] at hk; cases hk
    · rw [h.1] at hk; exact hk
  · intro k t hk
    rcases hcases k with h | h
    · rw [h.2] at hk; cases hk
    · rw [h.2] at hk; exact hk
  · intro hempty
    have hdone : cleanupExpired now m = .done m := by
      unfold cleanupExpired
      rw [hempty]
      rfl
    rw [hdone] at hrun
    simp only [Exec.done.injEq] at hrun
    exact hrun.symm

/-- Evaluation of C4 on `twoPending` at instant 15: `T1` (deadline 10) goes, `T2`
(deadline 20, channel 2) stays and channel 2 is open. -/
theorem cleanupExpired_frame_witness :
    WellFormed twoPending
    ∧ ∃ m', cleanupExpired 15 twoPending = .done m'
      ∧ (m'.store.channels.lookup "T1" = none ∧ m'.store.expiries.lookup "T1" = none)
      ∧ (m'.store.expiries.lookup "T2" = some 20
          ∧ m'.store.channels.lookup "T2" = some 2 ∧ 2 ∉ m'.heap.closed) := by
  refine ⟨by decide, ?_⟩
  obtain ⟨m', hrun, hgone, hkept, _⟩ := cleanupExpired_frame 15 twoPending (by decide)
  refine ⟨m', hrun, hgone "T1" 10 (by decide) (by decide), ?_⟩
  obtain ⟨h1, c, hc, hc', hopen⟩ := hkept "T2" 20 (by decide) (by decide)
  have hc2 : c = 2 := by
    have h2 : twoPending.store.channels.lookup "T2" = some 2 := by decide
    rw [h2] at hc
    exact (Option.some.inj hc).symm
  subst hc2
  exact ⟨h1, hc', hopen⟩

/-! ## Key sets of the two maps (claim C10) -/

/-- C10: the two maps of `NewCorrelationStore` have the same key set; `Set`,
`Delete` and a reaper pass (whether it completes or panics) preserve that; hence
after any sequence of store calls whose `Set` channels are non-nil the key sets
are equal, no reaper pass of the sequence has closed the nil channel, and every
token the next pass can visit indexes a stored, non-nil channel. -/
theorem sameKeys_invariant (d : Duration) (h : ChanHeap) (ops : List StoreOp)
    (hops : ∀ id ch now, StoreOp.set id ch now ∈ ops → ch ≠ nilChan) :
    SameKeys (NewCorrelationStore d)
    ∧ (∀ (s : CorrelationStore) (id : String) (ch : Chan) (now : Time),
        SameKeys s → SameKeys (s.Set id ch now))
    ∧ (∀ (s : CorrelationStore) (id : String), SameKeys s → SameKeys (s.Delete id))
    ∧ (∀ (now : Time) (m : Memory),
        SameKeys m.store → SameKeys (cleanupExpired now m).mem.store)
    ∧ SameKeys (runOps ops { store := NewCorrelationStore d, heap := h }).mem.store
    ∧ (∀ m', runOps ops { store := NewCorrelationStore d, heap := h }
          ≠ .panicked .closeOfNilChannel m')
    ∧ (∀ m', runOps ops { store := NewCorrelationStore d, heap := h } = .done m' →
        ∀ id, id ∈ m'.store.expiries →
          ∃ c, m'.store.channels.lookup id = some c ∧ c ≠ nilChan
            ∧ m'.store.channels.index id nilChan = c) := by
  have hinit : ∀ k c, (NewCorrelationStore d).channels.lookup k = some c → c ≠ nilChan := by
    intro k c hk
    simp [NewCorrelationStore] at hk
  obtain ⟨h1, h2, h3⟩ := runOps_invariant ops
    { store := NewCorrelationStore d, heap := h } (sameKeys_New d) hinit hops
  refine ⟨sameKeys_New d, sameKeys_Set, sameKeys_Delete, ?_, h1, h2, ?_⟩
  · intro now m hm
    exact cleanupLoop_sameKeys now _ m hm
  · intro m' hdone id hid
    rw [hdone] at h1
    obtain ⟨c, hc⟩ := lookup_some_of_mem (((sameKeys_iff m'.store).mp h1 id).mpr hid)
    exact ⟨c, hc, h3 m' hdone id c hc, by simp [GoMap.index, hc]⟩

/-- Evaluation of C10 on a sequence of two `Set`, a reaper pass and a `Delete`. -/
theorem sameKeys_invariant_witness :
    (∀ id ch now, StoreOp.set id ch now ∈
        [StoreOp.set "T1" 1 0, StoreOp.set "T2" 2 5, StoreOp.reap 303, StoreOp.delete "T9"] →
        ch ≠ nilChan)
    ∧ SameKeys (runOps
        [StoreOp.set "T1" 1 0, StoreOp.set "T2" 2 5, StoreOp.reap 303, StoreOp.delete "T9"]
        { store := NewCorrelationStore 300, heap := { next := 2, closed := [] } }).mem.store := by
  have hops : ∀ id ch now, StoreOp.set id ch now ∈
      [StoreOp.set "T1" 1 0, StoreOp.set "T2" 2 5, StoreOp.reap 303, StoreOp.delete "T9"] →
      ch ≠ nilChan := by
    intro id ch now hmem
    simp only [List.mem_cons, StoreOp.set.injEq, List.mem_singleton, reduceCtorEq,
      or_false, List.not_mem_nil] at hmem
    rcases hmem with ⟨_, rfl, _⟩ | ⟨_, rfl, _⟩ <;> decide
  exact ⟨hops, (sameKeys_invariant 300 { next := 2, closed := [] } _ hops).2.2.2.2.1⟩

/-! ## The handler up to its select (claims C1, C8) -/

/-- When the broker rejects the message, `Capture` answers 500 at once and
returns with the token still registered in both maps: the error path has no
`Delete`. -/
theorem Capture_client_error (env : Env) (request : CaptureRequest) (uuid : String)
    (now : Time) (m : Memory) (requestJSON err : String)
    (hm : env.Marshal { request with CorrelationID := uuid } = some requestJSON)
    (hp : env.Client { Topic := "payment-requests", Key := uuid, Value := requestJSON }
            = some err) :
    (Capture env (some request) uuid now m).ctl
        = .responded ⟨StatusInternalServerError, .error "Erro ao enviar solicitação"⟩
    ∧ (Capture env (some request) uuid now m).mem.store.channels.lookup uuid
        = some (m.heap.next + 1)
    ∧ (Capture env (some request) uuid now m).mem.store.expiries.lookup uuid
        = some (Add now m.store.expiryDuration) := by
  simp [Capture, makeChan, Produce, hm, hp, CorrelationStore.Set]

/-- C1 fails on the code. With a broker that rejects the message, `Capture` for
token `T4` answers 500 without waiting, but `T4` is still in both maps when it
returns (channel 1, deadline 300); an inbound message keyed `T4` then leaves the
dispatcher blocked in its send, since nobody receives on channel 1. -/
theorem c1_publish_failure_leaves_token :
    (Capture downEnv (some demoRequest) "T4" 0 (initMemory 300)).ctl
        = .responded ⟨StatusInternalServerError, .error "Erro ao enviar solicitação"⟩
    ∧ (Capture downEnv (some demoRequest) "T4" 0 (initMemory 300)).mem.store.channels.lookup "T4"
        = some 1
    ∧ (Capture downEnv (some demoRequest) "T4" 0 (initMemory 300)).mem.store.expiries.lookup "T4"
        = some 300
    ∧ (processMessage demoEnv (inbound "T4") (afterCapture downEnv "T4" .returned)).dispatcher
        = .sending "T4" 1 approved := by
  refine ⟨rfl, by decide, by decide, by decide⟩

/-- C8: for a request that binds and serialises, `Capture` hands the client exactly
one message, on topic `payment-requests`, whose key is the generated token and
whose body is the serialisation of the request with `CorrelationID` overwritten
by that token and every other field as the caller sent it; the token is the key
under which the fresh response channel is registered, and that channel is the
one the handler waits on when the client accepts the message. -/
theorem Capture_publishes_under_token (env : Env) (request : CaptureRequest)
    (uuid : String) (now : Time) (m : Memory) (requestJSON : String)
    (hm : env.Marshal { request with CorrelationID := uuid } = some requestJSON) :
    (Capture env (some request) uuid now m).produced
        = [{ Topic := "payment-requests", Key := uuid, Value := requestJSON }]
    ∧ (∃ published : CaptureRequest,
        env.Marshal published = some requestJSON
        ∧ published.CorrelationID = uuid
        ∧ published.TransactionID = request.TransactionID
        ∧ published.Amount = request.Amount
        ∧ published.Currency = request.Currency
        ∧ published.Metadata = request.Metadata)
    ∧ (Capture env (some request) uuid now m).mem.store.channels.lookup uuid
        = some (m.heap.next + 1)
    ∧ (Capture env (some request) uuid now m).mem.store.expiries.lookup uuid
        = some (Add now m.store.expiryDuration)
    ∧ (env.Client { Topic := "payment-requests", Key := uuid, Value := requestJSON } = none →
        (Capture env (some request) uuid now m).ctl = .selecting uuid (m.heap.next + 1)) := by
  refine ⟨?_, ⟨{ request with CorrelationID := uuid }, hm, rfl, rfl, rfl, rfl, rfl⟩, ?_, ?_, ?_⟩
  · cases hp : env.Client { Topic := "payment-requests", Key := uuid, Value := requestJSON } <;>
      simp [Capture, makeChan, Produce, hm, hp]
  · cases hp : env.Client { Topic := "payment-requests", Key := uuid, Value := requestJSON } <;>
      simp [Capture, makeChan, Produce, hm, hp, CorrelationStore.Set]
  · cases hp : env.Client { Topic := "payment-requests", Key := uuid, Value := requestJSON } <;>
      simp [Capture, makeChan, Produce, hm, hp, CorrelationStore.Set]
  · intro hp
    simp [Capture, makeChan, Produce, hm, hp]

/-- Evaluation of C8 on `demoRequest`, whose caller-supplied correlation_id is
replaced by the token `T8` in the published body. -/
theorem Capture_publishes_under_token_witness :
    demoEnv.Marshal { demoRequest with CorrelationID := "T8" } = some "T8/tx-1/BRL"
    ∧ (Capture demoEnv (some demoRequest) "T8" 0 (initMemory 300)).produced
        = [{ Topic := "payment-requests", Key := "T8", Value := "T8/tx-1/BRL" }]
    ∧ (Capture demoEnv (some demoRequest) "T8" 0 (initMemory 300)).mem.store.channels.lookup "T8"
        = some 1 :=
  have h := Capture_publishes_under_token demoEnv demoRequest "T8" 0 (initMemory 300)
    "T8/tx-1/BRL" (by decide)
  ⟨by decide, h.1, h.2.2.1⟩

/-! ## The dispatcher running alone (claims C5, C6) -/

/-- C6: when the key of an inbound message is not a registered token, or its body
does not decode, `processMessage` returns normally (no panic), the memory (store
and channels) is exactly as before, nothing was sent on any channel and the
waiting `Capture` was not woken; a registered token therefore stays pending. -/
theorem processMessage_drops (env : Env) (msg : Message) (s : Sys)
    (halive : s.panic = none)
    (h : s.mem.store.channels.lookup msg.Key = none ∨ env.Unmarshal msg.Value = none) :
    (processMessage env msg s).dispatcher = .returned
    ∧ (processMessage env msg s).panic = none
    ∧ (processMessage env msg s).mem = s.mem
    ∧ (processMessage env msg s).delivered = s.delivered
    ∧ (processMessage env msg s).capture = s.capture := by
  cases hl : s.mem.store.channels.lookup msg.Key with
  | none =>
    simp [processMessage, dispatchAll, step, dispatchStep, CorrelationStore.Get, halive, hl]
  | some ch =>
    have hu : env.Unmarshal msg.Value = none := by
      rcases h with h | h
      · rw [hl] at h; cases h
      · exact h
    simp [processMessage, dispatchAll, step, dispatchStep, CorrelationStore.Get, halive, hl, hu]

/-- Evaluation of C6: a message for the unknown token `T0` and an undecodable
message for the registered token `T6` both leave channel 1 registered under `T6`. -/
theorem processMessage_drops_witness :
    (afterCapture demoEnv "T6" .returned).panic = none
    ∧ (afterCapture demoEnv "T6" .returned).mem.store.channels.lookup "T0" = none
    ∧ demoEnv.Unmarshal "garbage" = none
    ∧ (processMessage demoEnv (inbound "T0") (afterCapture demoEnv "T6" .returned)).dispatcher
        = .returned
    ∧ (processMessage demoEnv (inbound "T0")
        (afterCapture demoEnv "T6" .returned)).mem.store.channels.lookup "T6" = some 1
    ∧ (processMessage demoEnv { Topic := "payment-responses", Key := "T6", Value := "garbage" }
        (afterCapture demoEnv "T6" .returned)).dispatcher = .returned
    ∧ (processMessage demoEnv { Topic := "payment-responses", Key := "T6", Value := "garbage" }
        (afterCapture demoEnv "T6" .returned)).mem.store.channels.lookup "T6" = some 1 := by
  have h0 := processMessage_drops demoEnv (inbound "T0") (afterCapture demoEnv "T6" .returned)
    rfl (Or.inl (by decide))
  have h6 := processMessage_drops demoEnv
    { Topic := "payment-responses", Key := "T6", Value := "garbage" }
    (afterCapture demoEnv "T6" .returned) rfl (Or.inr (by decide))
  refine ⟨rfl, by decide, by decide, h0.1, ?_, h6.1, ?_⟩
  · rw [h0.2.2.1]
    decide
  · rw [h6.2.2.1]
    decide

/-- C5, as stated for every store state in which the token is registered, fails:
the send in `processMessage` is a rendezvous on an unbuffered channel and needs a
`Capture` blocked in its `select` on that channel. After a `Capture` for `T4`
whose publish was rejected, `T4` is registered with channel 1 on well-formed
memory and the body decodes, yet `processMessage` does not return: it stays at
its send, nothing is delivered and `T4` is still in both maps. The same happens
for `T5` when the timer of its `Capture` has fired and `Delete` has not run yet. -/
theorem c5_no_waiter_no_delivery :
    (¬ ∀ (env : Env) (msg : Message) (s : Sys) (ch : Chan) (r : CaptureResponse),
        WellFormed s.mem → s.panic = none →
        s.mem.store.channels.lookup msg.Key = some ch →
        env.Unmarshal msg.Value = some r →
        (processMessage env msg s).dispatcher = .returned
        ∧ (processMessage env msg s).delivered = s.delivered ++ [(ch, r)]
        ∧ (processMessage env msg s).mem.store.channels.lookup msg.Key = none
        ∧ (processMessage env msg s).mem.store.expiries.lookup msg.Key = none)
    ∧ (processMessage downEnv (inbound "T4") (afterCapture downEnv "T4" .returned)).dispatcher
        = .sending "T4" 1 approved
    ∧ (processMessage downEnv (inbound "T4") (afterCapture downEnv "T4" .returned)).delivered
        = []
    ∧ (processMessage downEnv (inbound "T4")
        (afterCapture downEnv "T4" .returned)).mem.store.channels.lookup "T4" = some 1
    ∧ (processMessage demoEnv (inbound "T5")
        { afterCapture demoEnv "T5" .returned with capture := .timedOut "T5" }).dispatcher
        = .sending "T5" 1 approved
    ∧ (processMessage demoEnv (inbound "T5")
        { afterCapture demoEnv "T5" .returned with capture := .timedOut "T5" }).delivered
        = [] := by
  refine ⟨?_, by decide, by decide, by decide, by decide, by decide⟩
  intro h
  have h4 := (h downEnv (inbound "T4") (afterCapture downEnv "T4" .returned) 1 approved
    (by decide) rfl (by decide) (by decide)).1
  revert h4
  decide

/-- C5, amended: when token `msg.Key` is registered with channel `ch`, a `Capture` is
blocked in its `select` on `ch`, the body decodes to `r` and no reaper pass or
timer interleaves, `processMessage` returns after sending
exactly `r` on `ch` (one send, nothing else); the token is then absent from both
maps, every other entry keeps its channel and deadline, no channel was closed or
allocated, and the waiting `Capture` answers 200 with `r` itself. -/
theorem processMessage_delivers (env : Env) (msg : Message) (s : Sys) (id : String)
    (ch : Chan) (r : CaptureResponse)
    (hwf : WellFormed s.mem) (halive : s.panic = none)
    (hreg : s.mem.store.channels.lookup msg.Key = some ch)
    (hwait : s.capture = .selecting id ch)
    (hdec : env.Unmarshal msg.Value = some r) :
    (processMessage env msg s).dispatcher = .returned
    ∧ (processMessage env msg s).panic = none
    ∧ (processMessage env msg s).delivered = s.delivered ++ [(ch, r)]
    ∧ (processMessage env msg s).capture = .responded ⟨StatusOK, .response (some r)⟩
    ∧ (processMessage env msg s).mem.store.channels.lookup msg.Key = none
    ∧ (processMessage env msg s).mem.store.expiries.lookup msg.Key = none
    ∧ (∀ k, k ≠ msg.Key →
        (processMessage env msg s).mem.store.channels.lookup k = s.mem.store.channels.lookup k
        ∧ (processMessage env msg s).mem.store.expiries.lookup k
            = s.mem.store.expiries.lookup k)
    ∧ (processMessage env msg s).mem.heap = s.mem.heap := by
  obtain ⟨_, hch, _, _⟩ := (wellFormed_iff s.mem).mp hwf
  obtain ⟨hnil, _, hopen⟩ := hch msg.Key ch hreg
  have hrun : processMessage env msg s =
      { s with
        mem := { s.mem with store := s.mem.store.Delete msg.Key }
        capture := .responded ⟨StatusOK, .response (some r)⟩
        dispatcher := .returned
        delivered := s.delivered ++ [(ch, r)] } := by
    simp [processMessage, dispatchAll, step, dispatchStep, CorrelationStore.Get, halive, hreg,
      hdec, hwait, hnil, hopen]
  rw [hrun]
  refine ⟨rfl, halive, rfl, rfl, ?_, ?_, ?_, rfl⟩
  · exact AList.lookup_erase _ _
  · exact AList.lookup_erase _ _
  · intro k hk
    exact ⟨AList.lookup_erase_ne hk, AList.lookup_erase_ne hk⟩

/-- Evaluation of C5: `T5` is registered with channel 1 and its `Capture` waits on
channel 1; the inbound `approved` response is delivered and answered with 200. -/
theorem processMessage_delivers_witness :
    WellFormed (afterCapture demoEnv "T5" .returned).mem
    ∧ (afterCapture demoEnv "T5" .returned).mem.store.channels.lookup "T5" = some 1
    ∧ (afterCapture demoEnv "T5" .returned).capture = .selecting "T5" 1
    ∧ (processMessage demoEnv (inbound "T5") (afterCapture demoEnv "T5" .returned)).capture
        = .responded ⟨StatusOK, .response (some approved)⟩
    ∧ (processMessage demoEnv (inbound "T5")
        (afterCapture demoEnv "T5" .returned)).mem.store.channels.lookup "T5" = none :=
  have h := processMessage_delivers demoEnv (inbound "T5") (afterCapture demoEnv "T5" .returned)
    "T5" 1 approved (by decide) rfl (by decide) rfl (by decide)
  ⟨by decide, by decide, rfl, h.2.2.2.1, h.2.2.2.2.1⟩

/-! ## The local timeout of the handler (claim C7) -/

/-- C7: a `Capture` whose publish succeeded is blocked in its `select`; when its
timer fires before anything is received, the handler runs `Delete` and answers
504: its token is then absent from both maps, every other entry is unchanged, and
the channel heap and the dispatcher are untouched. -/
theorem Capture_local_timeout (env : Env) (request : CaptureRequest) (uuid : String)
    (now : Time) (m0 : Memory) (requestJSON : String) (s : Sys)
    (hm : env.Marshal { request with CorrelationID := uuid } = some requestJSON)
    (hp : env.Client { Topic := "payment-requests", Key := uuid, Value := requestJSON } = none)
    (hs : s.capture = (Capture env (some request) uuid now m0).ctl)
    (halive : s.panic = none) :
    ∃ s', run env [.timer, .capture] s = some s'
      ∧ s'.capture = .responded ⟨StatusGatewayTimeout,
            .error "Tempo limite excedido esperando resposta"⟩
      ∧ s'.mem.store.channels.lookup uuid = none
      ∧ s'.mem.store.expiries.lookup uuid = none
      ∧ (∀ k, k ≠ uuid →
          s'.mem.store.channels.lookup k = s.mem.store.channels.lookup k
          ∧ s'.mem.store.expiries.lookup k = s.mem.store.expiries.lookup k)
      ∧ s'.mem.heap = s.mem.heap
      ∧ s'.dispatcher = s.dispatcher
      ∧ s'.delivered = s.delivered
      ∧ s'.panic = none := by
  have hctl : s.capture = .selecting uuid (m0.heap.next + 1) := by
    rw [hs]
    simp [Capture, makeChan, Produce, hm, hp]
  refine ⟨{ s with
            mem := { s.mem with store := s.mem.store.Delete uuid }
            capture := .responded ⟨StatusGatewayTimeout,
              .error "Tempo limite excedido esperando resposta"⟩ }, ?_, rfl, ?_, ?_, ?_,
          rfl, rfl, rfl, halive⟩
  · simp [run, step, timerStep, captureStep, halive, hctl]
  · exact AList.lookup_erase _ _
  · exact AList.lookup_erase _ _
  · intro k hk
    exact ⟨AList.lookup_erase_ne hk, AList.lookup_erase_ne hk⟩

/-- Evaluation of C7 for token `T7`: timer, then the timeout branch. -/
theorem Capture_local_timeout_witness :
    demoEnv.Marshal { demoRequest with CorrelationID := "T7" } = some "T7/tx-1/BRL"
    ∧ demoEnv.Client { Topic := "payment-requests", Key := "T7", Value := "T7/tx-1/BRL" } = none
    ∧ ∃ s', run demoEnv [.timer, .capture] (afterCapture demoEnv "T7" .returned) = some s'
        ∧ s'.capture = .responded ⟨StatusGatewayTimeout,
              .error "Tempo limite excedido esperando resposta"⟩
        ∧ s'.mem.store.channels.lookup "T7" = none
        ∧ s'.mem.store.expiries.lookup "T7" = none := by
  obtain ⟨s', h1, h2, h3, h4, _⟩ :=
    Capture_local_timeout demoEnv demoRequest "T7" 0 (initMemory 300) "T7/tx-1/BRL"
      (afterCapture demoEnv "T7" .returned) (by decide) rfl rfl rfl
  exact ⟨by decide, rfl, s', h1, h2, h3, h4⟩

/-! ## Expiry by the reaper while the handler waits (claim C2) -/

/-- When the reaper pass expires the entry of a token whose `Capture` is still
blocked in its `select`, the pass closes the channel, the `select` receives the
zero value from the closed channel, and the handler answers 200 with a nil
response. -/
theorem reaper_wakes_capture_with_nil (env : Env) (s : Sys) (id : String) (ch : Chan)
    (now t : Time) (hwf : WellFormed s.mem) (halive : s.panic = none)
    (hwait : s.capture = .selecting id ch)
    (hreg : s.mem.store.channels.lookup id = some ch)
    (hexp : s.mem.store.expiries.lookup id = some t) (hlt : t < now) :
    ∃ s', run env [.tick now, .capture] s = some s'
      ∧ s'.capture = .responded ⟨StatusOK, .response none⟩
      ∧ s'.panic = none
      ∧ s'.mem.store.channels.lookup id = none
      ∧ s'.mem.store.expiries.lookup id = none := by
  obtain ⟨m', hrun, _, _⟩ := cleanupExpired_wellFormed now s.mem hwf
  have ha : After now t = true := by simp [After, hlt]
  have hclosed : ch ∈ m'.heap.closed := cleanupExpired_closes hwf hrun hexp ha hreg
  obtain ⟨hg1, hg2⟩ := cleanupExpired_lookup_expired hrun hexp ha
  refine ⟨{ s with mem := m', capture := .responded ⟨StatusOK, .response none⟩ },
    ?_, rfl, halive, hg1, hg2⟩
  simp [run, step, tickStep, captureStep, halive, hwait, hrun, hclosed]

/-- C2 fails on the code. Token `T2` is registered at instant 0 with deadline 300
and its `Capture` waits; the reaper pass at instant 301 expires it; the waiting
`Capture` then completes with status 200 and a nil (JSON null) response, not
with 504. -/
theorem c2_reaper_expiry_answers_200_null :
    (afterCapture demoEnv "T2" .returned).capture = .selecting "T2" 1
    ∧ (afterCapture demoEnv "T2" .returned).mem.store.expiries.lookup "T2" = some 300
    ∧ Option.map (fun s => s.capture)
        (run demoEnv [.tick 301, .capture] (afterCapture demoEnv "T2" .returned))
        = some (.responded ⟨StatusOK, .response none⟩)
    ∧ Option.map (fun s => s.capture)
        (run demoEnv [.tick 301, .capture] (afterCapture demoEnv "T2" .returned))
        ≠ some (.responded ⟨StatusGatewayTimeout,
            .error "Tempo limite excedido esperando resposta"⟩) := by
  refine ⟨rfl, by decide, by decide, by decide⟩

/-! ## Resolution racing with expiry (claim C9) -/

/-- A dispatcher blocked in its send on an open channel that is registered under
no token, while the only `Capture` has returned, stays blocked under every
schedule: the value is never received. -/
theorem sender_blocked_forever (env : Env) (id : String) (ch : Chan) (r : CaptureResponse) :
    ∀ (acts : List Action) (s s' : Sys), run env acts s = some s' →
      s.dispatcher = .sending id ch r →
      (∃ resp, s.capture = .responded resp) →
      ch ∉ s.mem.heap.closed →
      (∀ k, s.mem.store.channels.lookup k ≠ some ch) →
      s'.dispatcher = .sending id ch r ∧ s'.delivered = s.delivered
        ∧ s'.capture = s.capture := by
  intro acts
  induction acts with
  | nil =>
    intro s s' h hd _ _ _
    simp only [run, Option.some.injEq] at h
    subst h
    exact ⟨hd, rfl, rfl⟩
  | cons a acts ih =>
    intro s s' h hd hcap hopen hfree
    obtain ⟨resp, hresp⟩ := hcap
    simp only [run] at h
    cases hp : s.panic with
    | some p => simp [step, hp] at h
    | none =>
      cases a with
      | dispatch =>
        by_cases hn : ch = nilChan
        · simp [step, hp, dispatchStep, hd, hn] at h
        · simp [step, hp, dispatchStep, hd, hn, hopen, hresp] at h
      | timer => simp [step, hp, timerStep, hresp] at h
      | capture => simp [step, hp, captureStep, hresp] at h
      | tick now =>
        have hsub := cleanupLoop_sub now s.mem.store.expiries.entries s.mem
        have hopen1 : ch ∉ (cleanupExpired now s.mem).mem.heap.closed := by
          intro hin
          rcases hsub.1 ch hin with h1 | ⟨k, hk⟩
          · exact hopen h1
          · exact hfree k hk
        have hfree1 : ∀ k, (cleanupExpired now s.mem).mem.store.channels.lookup k ≠ some ch :=
          fun k hk => hfree k (hsub.2 k ch hk)
        cases hr : cleanupExpired now s.mem with
        | done m1 =>
          rw [hr] at hopen1 hfree1
          simp only [step, hp, tickStep, hr] at h
          exact ih { s with mem := m1, panic := none } s' h hd ⟨resp, hresp⟩ hopen1 hfree1
        | panicked q m1 =>
          rw [hr] at hopen1 hfree1
          simp only [step, hp, tickStep, hr] at h
          exact ih { s with mem := m1, panic := some q } s' h hd ⟨resp, hresp⟩ hopen1 hfree1

/-- C9 fails on the code: `processMessage` looks the channel up with `Get`, sends
after the lock is released, and only then calls `Delete`. Token `T3` is
registered with channel 1 and its `Capture` waits. (a) Dispatcher `Get`, then a
reaper pass at instant 301 (deadline 300), then the dispatcher decodes and
sends: the process panics with a send on a closed channel. (b) Dispatcher `Get`
and decode, then the local timer fires and the handler runs `Delete` and answers
504, then the dispatcher sends: it is blocked, and stays blocked under every
continuation, with nothing delivered. In both runs the dispatcher had found `T3`
present, so the loser did not observe absence. -/
theorem c9_resolve_expire_race :
    Option.map (fun s => (s.panic, s.dispatcher))
        (run demoEnv [.dispatch, .tick 301, .dispatch, .dispatch]
          (afterCapture demoEnv "T3" (.entered (inbound "T3"))))
        = some (some .sendOnClosedChannel, .sending "T3" 1 approved)
    ∧ ∃ s, run demoEnv [.dispatch, .dispatch, .timer, .capture]
              (afterCapture demoEnv "T3" (.entered (inbound "T3"))) = some s
        ∧ s.capture = .responded ⟨StatusGatewayTimeout,
              .error "Tempo limite excedido esperando resposta"⟩
        ∧ s.dispatcher = .sending "T3" 1 approved
        ∧ s.mem.store.channels.lookup "T3" = none
        ∧ step demoEnv .dispatch s = none
        ∧ ∀ (acts : List Action) (s' : Sys), run demoEnv acts s = some s' →
            s'.dispatcher = .sending "T3" 1 approved ∧ s'.delivered = [] := by
  refine ⟨by decide, ?_⟩
  cases hrun : run demoEnv [.dispatch, .dispatch, .timer, .capture]
      (afterCapture demoEnv "T3" (.entered (inbound "T3"))) with
  | none =>
    have hsome : (run demoEnv [.dispatch, .dispatch, .timer, .capture]
        (afterCapture demoEnv "T3" (.entered (inbound "T3")))).isSome = true := by decide
    rw [hrun] at hsome
    cases hsome
  | some s =>
    have hs : some s = run demoEnv [.dispatch, .dispatch, .timer, .capture]
        (afterCapture demoEnv "T3" (.entered (inbound "T3"))) := hrun.symm
    have hcap : s.capture = .responded ⟨StatusGatewayTimeout,
        .error "Tempo limite excedido esperando resposta"⟩ := by
      have : Option.map (fun s => s.capture) (some s) = some (.responded ⟨StatusGatewayTimeout,
          .error "Tempo limite excedido esperando resposta"⟩) := by rw [hs]; decide
      simpa using this
    have hdis : s.dispatcher = .sending "T3" 1 approved := by
      have : Option.map (fun s => s.dispatcher) (some s) = some (.sending "T3" 1 approved) := by
        rw [hs]; decide
      simpa using this
    have hclosed : s.mem.heap.closed = [] := by
      have : Option.map (fun s => s.mem.heap.closed) (some s) = some [] := by
        rw [hs]; decide
      simpa using this
    have hentries : s.mem.store.channels.entries = [] := by
      have : Option.map (fun s => s.mem.store.channels.entries) (some s) = some [] := by
        rw [hs]; decide
      simpa using this
    have hdel : s.delivered = [] := by
      have : Option.map (fun s => s.delivered) (some s) = some [] := by
        rw [hs]; decide
      simpa using this
    have hpanic : s.panic = none := by
      have : Option.map (fun s => s.panic) (some s) = some none := by
        rw [hs]; decide
      simpa using this
    have hfree : ∀ k, s.mem.store.channels.lookup k ≠ some 1 := by
      intro k hk
      have := (lookup_some_iff_mem_entries _ _ _).mp hk
      rw [hentries] at this
      cases this
    refine ⟨s, rfl, hcap, hdis, ?_, ?_, ?_⟩
    · cases hl : s.mem.store.channels.lookup "T3" with
      | none => rfl
      | some c =>
        have := (lookup_some_iff_mem_entries _ _ _).mp hl
        rw [hentries] at this
        cases this
    · simp [step, hpanic, dispatchStep, hdis, hcap, hclosed, nilChan]
    · intro acts s' hr
      obtain ⟨h1, h2, _⟩ := sender_blocked_forever demoEnv "T3" 1 approved acts s s' hr hdis
        ⟨_, hcap⟩ (by rw [hclosed]; exact List.not_mem_nil _) hfree
      exact ⟨h1, h2.trans hdel⟩

end Demosync
